import Mathlib

/-!
Shallow embedding of the incremental delta-calculation core of the metro
bundler (packages/metro/src/DeltaBundler/DeltaCalculator.js) together with a
model of the HMR change-notification protocol.

The DeltaCalculator is an asynchronous, event-driven class.  We embed it as a
pure state machine:

* the mutable instance fields become a record, CalcState;
* the external traversal engine (initialTraverseDependencies,
  traverseDependencies, reorderGraph live in traverseDependencies.js, outside
  this snapshot) is an oracle record of abstract functions; a traversal that
  throws is an oracle returning Except.error together with the (possibly
  mutated) graph it leaves behind;
* the suspension points of getDelta become explicit steps: startBuild (the
  synchronous prefix that swaps out the pending sets and records the edge
  count), interleaved file-change notifications, and finishBuild (the
  completion of the awaited build, including the catch-block recovery).
  File-change handlers are synchronous in the source, so they interleave with
  a build only between its awaits; this step granularity captures exactly the
  observable interleavings.

JavaScript Sets and Maps keep insertion order; they are embedded as lists
without duplicated keys, with insertion-ordered add.
-/

namespace MetroDelta


/-- Edge record of the dependency graph (DependencyEdge in
traverseDependencies.js): resolved dependencies in source order, the set of
inverse dependencies, and the compiled output (opaque here). -/
structure DependencyEdge where
  path : String
  dependencies : List (String × String)
  inverseDependencies : List String
  output : String
deriving DecidableEq, Repr

/-- Graph record: entry points plus the path-to-edge map, embedded as an
insertion-ordered association list. -/
structure Graph where
  dependencies : List (String × DependencyEdge)
  entryPoints : List String
deriving DecidableEq, Repr

/-- Map.get on the dependencies map. -/
def lookupEdge (g : Graph) (p : String) : Option DependencyEdge :=
  g.dependencies.lookup p

/-- Map.has on the dependencies map. -/
def hasEdge (g : Graph) (p : String) : Bool :=
  (lookupEdge g p).isSome

/-- Set.add: appends the element unless it is already present (JS Set
semantics keep the first insertion position). -/
def addPath (l : List String) (p : String) : List String :=
  if p ∈ l then l else l ++ [p]

/-- Set.delete embedded as a filter. -/
def removePath (l : List String) (p : String) : List String :=
  l.filter (fun q => q ≠ p)

/-- DeltaResult: the value getDelta resolves with. -/
structure DeltaResult where
  modified : List (String × DependencyEdge)
  deleted : List String
  reset : Bool
deriving DecidableEq, Repr

/-- Oracle for the external traversal engine.  Each operation receives the
graph and returns the graph it leaves behind plus either its result or the
error it throws (the source mutates the graph in place, so a throwing
traversal may still have changed it). -/
structure TraversalOracle (ε : Type) where
  initialTraverse : Graph → Graph × Except ε (List (String × DependencyEdge))
  traverse : List String → Graph →
    Graph × Except ε (List (String × DependencyEdge) × List String)
  reorder : Graph → Graph

/-- Deletion expansion of _getChangedDependencies (lines 302-310): for each
deleted path with an edge record, every inverse dependency is added to the
modified set.  deletedFiles.forEach is a left-to-right traversal mutating the
modified set, embedded as structural recursion over the deleted list. -/
def expandDeleted (g : Graph) (modifiedFiles : List String) :
    List String → List String
  | [] => modifiedFiles
  | fp :: rest =>
    match lookupEdge g fp with
    | some edge =>
      expandDeleted g (edge.inverseDependencies.foldl addPath modifiedFiles) rest
    | none => expandDeleted g modifiedFiles rest

/-- Lines 312-315: the expanded modified set filtered down to paths that have
an edge record in the graph; this is the worklist submitted to the traversal
engine. -/
def modifiedDependencies (g : Graph) (modifiedFiles deletedFiles : List String) :
    List String :=
  (expandDeleted g modifiedFiles deletedFiles).filter (fun p => hasEdge g p)

/-- Wrapping of a successful or throwing initial traversal into the
DeltaResult of the empty-graph branch (lines 287-300). -/
def submitInitial (tr : Graph × Except ε (List (String × DependencyEdge))) :
    Graph × Except ε DeltaResult :=
  match tr with
  | (g', Except.ok added) => (g', Except.ok ⟨added, [], true⟩)
  | (g', Except.error e) => (g', Except.error e)

/-- Wrapping of a partial traversal's outcome into a DeltaResult
(lines 322-334). -/
def submitTraverse
    (tr : Graph × Except ε (List (String × DependencyEdge) × List String)) :
    Graph × Except ε DeltaResult :=
  match tr with
  | (g', Except.ok ad) => (g', Except.ok ⟨ad.1, ad.2, false⟩)
  | (g', Except.error e) => (g', Except.error e)

/-- _getChangedDependencies (lines 278-335): initial traversal on an empty
graph; otherwise deletion expansion, filtering, the empty-delta shortcut, and
the partial traversal. -/
def getChangedDependencies (orc : TraversalOracle ε) (g : Graph)
    (modifiedFiles deletedFiles : List String) : Graph × Except ε DeltaResult :=
  if g.dependencies.length = 0 then
    submitInitial (orc.initialTraverse g)
  else
    let md := modifiedDependencies g modifiedFiles deletedFiles
    if md.length = 0 then
      (g, Except.ok ⟨[], [], false⟩)
    else
      submitTraverse (orc.traverse md g)

/-- Options record memoized by getTransformerOptions (JSTransformerOptions in
the source); its values come from the bundler, external to this snapshot, so
the derivation is supplied as an oracle where needed. -/
structure JSTransformerOptions where
  assetDataPlugins : List String
  customTransformOptions : String
  enableBabelRCLookup : Bool
  dev : Bool
  hot : Bool
  inlineRequires : Bool
  minify : Bool
  platform : Option String
  projectRoot : String
deriving DecidableEq, Repr

/-- Instance state of a DeltaCalculator: the two pending sets, the graph, the
in-flight build (consumed modified set, consumed deleted set, the edge count
recorded at line 135, and the reset argument of the call), the memoized
transformer options, and the entry points fixed at construction. -/
structure CalcState (ε : Type) where
  modifiedFiles : List String
  deletedFiles : List String
  graph : Graph
  inflight : Option (List String × List String × Nat × Bool)
  transformerOptions : Option JSTransformerOptions
  entryPoints : List String
deriving DecidableEq, Repr

/-- Constructor state: empty pending sets, empty graph over the option's
entry points, no build, no memoized options. -/
def initialCalcState (ε : Type) (entryPoints : List String) : CalcState ε :=
  ⟨[], [], ⟨[], entryPoints⟩, none, none, entryPoints⟩

/-- _handleFileChange (lines 258-276): a delete adds to the deleted set and
removes from the modified set; any other change type does the opposite. -/
def handleFileChange (type filePath : String) (s : CalcState ε) : CalcState ε :=
  if type = "delete" then
    { s with
      deletedFiles := addPath s.deletedFiles filePath,
      modifiedFiles := removePath s.modifiedFiles filePath }
  else
    { s with
      deletedFiles := removePath s.deletedFiles filePath,
      modifiedFiles := addPath s.modifiedFiles filePath }

/-- Synchronous prefix of getDelta (lines 110-135): if no build is in flight,
swap both pending sets out for fresh empty ones and record the consumed sets,
the current edge count and the reset argument.  When a build is in flight the
call merely awaits it, which changes nothing; the step is the identity
there. -/
def startBuildStep (reset : Bool) (s : CalcState ε) : CalcState ε :=
  match s.inflight with
  | some _ => s
  | none =>
    { s with
      modifiedFiles := [],
      deletedFiles := [],
      inflight :=
        some (s.modifiedFiles, s.deletedFiles, s.graph.dependencies.length, reset) }

/-- Completion of the awaited build (lines 137-171): on error, the consumed
paths are re-added to the pending sets, the graph is emptied when its edge
count changed, and the error is re-raised; on success with reset=true the
graph is reordered and returned wholesale; otherwise the build's own result
is returned. -/
def finishBuild (orc : TraversalOracle ε) (s : CalcState ε) :
    CalcState ε × Option (Except ε DeltaResult) :=
  match s.inflight with
  | none => (s, none)
  | some (cm, cd, numDeps, reset) =>
    match getChangedDependencies orc s.graph cm cd with
    | (g', Except.error e) =>
      ({ s with
         modifiedFiles := cm.foldl addPath s.modifiedFiles,
         deletedFiles := cd.foldl addPath s.deletedFiles,
         graph :=
           if g'.dependencies.length ≠ numDeps then
             { g' with dependencies := [] }
           else g',
         inflight := none },
       some (Except.error e))
    | (g', Except.ok result) =>
      if reset then
        ({ s with graph := orc.reorder g', inflight := none },
         some (Except.ok ⟨(orc.reorder g').dependencies, [], true⟩))
      else
        ({ s with graph := g', inflight := none }, some (Except.ok result))

/-- end() (lines 90-104): detaches listeners (external to this model) and
resets the graph and the pending sets; the memoized transformer options are
left untouched. -/
def endCalc (s : CalcState ε) : CalcState ε :=
  { s with
    graph := ⟨[], s.entryPoints⟩,
    modifiedFiles := [],
    deletedFiles := [] }

/-- getTransformerOptions (lines 178-183): memoized lazy computation; the
derivation itself (_calcTransformerOptions) calls the bundler and is supplied
as the oracle calc. -/
def getTransformerOptions (calcOpts : CalcState ε → JSTransformerOptions)
    (s : CalcState ε) : CalcState ε × JSTransformerOptions :=
  match s.transformerOptions with
  | some o => (s, o)
  | none => ({ s with transformerOptions := some (calcOpts s) }, calcOpts s)

/-- One step of the observable event loop of a DeltaCalculator instance. -/
inductive Op where
  | fileChange (type filePath : String)
  | startBuild (reset : Bool)
  | finishBuild
deriving DecidableEq, Repr

/-- Step interpretation of an operation (build results are discarded; they
are examined through finishBuild directly). -/
def step (orc : TraversalOracle ε) (s : CalcState ε) : Op → CalcState ε
  | Op.fileChange t p => handleFileChange t p s
  | Op.startBuild r => startBuildStep r s
  | Op.finishBuild => (finishBuild orc s).1

/-- Run of a sequence of operations from a state. -/
def runOps (orc : TraversalOracle ε) (ops : List Op) (s : CalcState ε) :
    CalcState ε :=
  ops.foldl (fun st op => step orc st op) s

/-- Mutual exclusivity of the two pending sets. -/
def pendingExclusive (s : CalcState ε) : Prop :=
  ∀ q, q ∈ s.modifiedFiles → q ∉ s.deletedFiles

/-- Modelled from the spec: shape of an error thrown during delta
computation, as consumed by the Live Update Server's normalization (the
HmrServer implementation is absent from this snapshot; only its tests are
present). -/
structure ThrownError where
  type : String
  message : String
  filename : String
  lineNumber : Nat
deriving DecidableEq, Repr

/-- Modelled from the spec: the body of an error wire message,
type/message/errors with one description-filename-lineNumber entry per
underlying error. -/
structure HmrErrorBody where
  type : String
  message : String
  errors : List (String × String × Nat)
deriving DecidableEq, Repr

/-- Modelled from the spec: the client-facing wire messages of the Live
Update Server, discriminated by their type field. -/
inductive HmrMessage where
  | updateStart
  | update (modules : List (String × String))
  | error (body : HmrErrorBody)
  | updateDone
deriving DecidableEq, Repr

/-- Modelled from the spec: the update payload's module list, each module
keyed by the pluggable id-assignment function and carrying its wrapped
compiled output. -/
def prepareModules (createModuleId : String → String)
    (modified : List (String × DependencyEdge)) : List (String × String) :=
  modified.map (fun pe => (createModuleId pe.1, pe.2.output))

/-- Modelled from the spec: normalization of a thrown error into
type/message plus a single description-filename-lineNumber record whose
description repeats the message. -/
def formatHmrError (e : ThrownError) : HmrErrorBody :=
  ⟨e.type, e.message, [(e.message, e.filename, e.lineNumber)]⟩

/-- Modelled from the spec: the Live Update Server's change-notification
handler (HmrServer source missing from src; behaviour fixed by the spec and
its tests): it sends update-start, then the update on success or the
normalized error on failure, then update-done, and never re-raises. -/
def messagesForChange (createModuleId : String → String)
    (outcome : Except ThrownError DeltaResult) : List HmrMessage :=
  [HmrMessage.updateStart] ++
    (match outcome with
     | Except.ok d =>
       [HmrMessage.update (prepareModules createModuleId d.modified)]
     | Except.error e => [HmrMessage.error (formatHmrError e)]) ++
    [HmrMessage.updateDone]

/-- Claim C9 counterexample defs -/
def cexGraph : Graph := ⟨[("p", ⟨"p", [], [], "code"⟩)], ["p"]⟩

def cexOracle : TraversalOracle Unit :=
  { initialTraverse := fun _ => (cexGraph, Except.ok cexGraph.dependencies),
    traverse := fun _ g => (g, Except.error ()),
    reorder := fun g => g }

def cexOps : List Op :=
  [Op.startBuild false, Op.finishBuild, Op.fileChange "modified" "p",
   Op.startBuild false, Op.fileChange "delete" "p", Op.finishBuild]

def w1Graph : Graph :=
  ⟨[("a", ⟨"a", [], [], "oa"⟩), ("b", ⟨"b", [], [], "ob"⟩),
    ("d", ⟨"d", [], ["b"], "od"⟩)], ["a"]⟩

def w1Oracle : TraversalOracle Unit :=
  { initialTraverse := fun g => (g, Except.error ()),
    traverse := fun _ g => (g, Except.ok ([], [])),
    reorder := fun g => g }

def w2Graph : Graph := ⟨[("a", ⟨"a", [], [], "o"⟩)], ["a"]⟩

def w2Oracle : TraversalOracle Unit :=
  { initialTraverse := fun g => (g, Except.error ()),
    traverse := fun _ g => ((⟨[], g.entryPoints⟩ : Graph), Except.error ()),
    reorder := fun g => g }

def w2State : CalcState Unit :=
  ⟨[], [], w2Graph, some (["a"], [], 1, false), none, ["a"]⟩

def w3Graph : Graph := ⟨[("a", ⟨"a", [], [], "o"⟩)], ["a"]⟩

def w3Oracle : TraversalOracle Unit :=
  { initialTraverse := fun g => (g, Except.error ()),
    traverse := fun _ g => (g, Except.error ()),
    reorder := fun g => g }

def w3State : CalcState Unit :=
  ⟨[], ["z"], w3Graph, some (["a"], ["q"], 1, false), none, ["a"]⟩

def w4Oracle : TraversalOracle Unit :=
  { initialTraverse := fun g => (g, Except.error ()),
    traverse := fun _ g => (g, Except.ok ([], [])),
    reorder := fun g => g }

def w4State : CalcState Unit :=
  ⟨["m"], [], ⟨[("a", ⟨"a", [], [], "o"⟩)], ["a"]⟩, none, none, ["a"]⟩

def w5Graph : Graph := ⟨[("a", ⟨"a", [], [], "o"⟩)], ["a"]⟩

def w5Oracle : TraversalOracle Unit :=
  { initialTraverse := fun g => (g, Except.error ()),
    traverse := fun _ g => (g, Except.ok ([], [])),
    reorder := fun g => g }

def w5State : CalcState Unit :=
  ⟨[], [], w5Graph, some (["a"], [], 1, true), none, ["a"]⟩

def w6Graph : Graph := ⟨[("e", ⟨"e", [], [], "oe"⟩)], ["e"]⟩

def w6Oracle : TraversalOracle Unit :=
  { initialTraverse := fun _ => (w6Graph, Except.ok w6Graph.dependencies),
    traverse := fun _ g => (g, Except.error ()),
    reorder := fun g => g }

def w7Graph : Graph := ⟨[("a", ⟨"a", [], [], "o"⟩)], ["a"]⟩

def w7Oracle : TraversalOracle Unit :=
  { initialTraverse := fun g => (g, Except.error ()),
    traverse := fun _ g => (g, Except.error ()),
    reorder := fun g => g }

def w9Oracle : TraversalOracle Unit :=
  { initialTraverse := fun g => (g, Except.error ()),
    traverse := fun _ g => (g, Except.error ()),
    reorder := fun g => g }

def w9State : CalcState Unit :=
  ⟨["m"], ["k"], ⟨[], ["a"]⟩, none, none, ["a"]⟩

def w10Opts : JSTransformerOptions :=
  ⟨[], "", false, true, true, false, false, none, "/root"⟩

def w10State : CalcState Unit :=
  ⟨["m"], [], ⟨[("a", ⟨"a", [], [], "o"⟩)], ["a"]⟩, none, some w10Opts, ["a"]⟩

theorem mem_addPath {l : List String} {p q : String} :
    q ∈ addPath l p ↔ q ∈ l ∨ q = p := by
  unfold addPath
  split
  · next h =>
    constructor
    · exact fun hq => Or.inl hq
    · rintro (hq | rfl)
      · exact hq
      · exact h
  · next h => simp only [List.mem_append, List.mem_singleton]

theorem mem_foldl_addPath (l acc : List String) (q : String) :
    q ∈ l.foldl addPath acc ↔ q ∈ acc ∨ q ∈ l := by
  induction l generalizing acc with
  | nil => simp
  | cons x xs ih =>
    simp only [List.foldl_cons, ih, mem_addPath, List.mem_cons]
    tauto

theorem mem_removePath {l : List String} {p q : String} :
    q ∈ removePath l p ↔ q ∈ l ∧ q ≠ p := by
  unfold removePath
  simp [List.mem_filter]

theorem mem_expandDeleted (g : Graph) (m d : List String) (q : String) :
    q ∈ expandDeleted g m d ↔
      q ∈ m ∨ ∃ fp ∈ d, ∃ e, lookupEdge g fp = some e ∧
        q ∈ e.inverseDependencies := by
  induction d generalizing m with
  | nil =>
    rw [show expandDeleted g m [] = m from rfl]
    simp
  | cons fp rest ih =>
    cases h : lookupEdge g fp with
    | none =>
      simp only [expandDeleted, h, ih, List.mem_cons]
      constructor
      · rintro (hm | ⟨x, hx, e, he, hq⟩)
        · exact Or.inl hm
        · exact Or.inr ⟨x, Or.inr hx, e, he, hq⟩
      · rintro (hm | ⟨x, hx | hx, e, he, hq⟩)
        · exact Or.inl hm
        · rw [hx] at he; rw [h] at he; cases he
        · exact Or.inr ⟨x, hx, e, he, hq⟩
    | some edge =>
      simp only [expandDeleted, h, ih, mem_foldl_addPath, List.mem_cons]
      constructor
      · rintro ((hm | hinv) | ⟨x, hx, e, he, hq⟩)
        · exact Or.inl hm
        · exact Or.inr ⟨fp, Or.inl rfl, edge, h, hinv⟩
        · exact Or.inr ⟨x, Or.inr hx, e, he, hq⟩
      · rintro (hm | ⟨x, hx | hx, e, he, hq⟩)
        · exact Or.inl (Or.inl hm)
        · rw [hx] at he; rw [h] at he
          cases he
          exact Or.inl (Or.inr hq)
        · exact Or.inr ⟨x, hx, e, he, hq⟩

theorem mem_modifiedDependencies (g : Graph) (m d : List String) (q : String) :
    q ∈ modifiedDependencies g m d ↔
      hasEdge g q = true ∧
        (q ∈ m ∨ ∃ fp ∈ d, ∃ e, lookupEdge g fp = some e ∧
          q ∈ e.inverseDependencies) := by
  unfold modifiedDependencies
  rw [List.mem_filter, mem_expandDeleted]
  tauto

theorem finishBuild_snd_congr (orc : TraversalOracle ε) (s s' : CalcState ε)
    (h1 : s'.inflight = s.inflight) (h2 : s'.graph = s.graph) :
    (finishBuild orc s').2 = (finishBuild orc s).2 := by
  cases hi : s.inflight with
  | none => simp [finishBuild, h1, h2, hi]
  | some v =>
    obtain ⟨cm, cd, n, r⟩ := v
    cases hr : getChangedDependencies orc s.graph cm cd with
    | mk g' res =>
      cases res with
      | error e => simp [finishBuild, h1, h2, hi, hr]
      | ok result => cases r <;> simp [finishBuild, h1, h2, hi, hr]

/-- Claim C1: on a non-empty graph, the consumed modified set is enlarged
with the inverse dependencies of every consumed deleted path that has an edge
record, then filtered to paths with an edge record; a path is in the
submitted worklist exactly when it is graph-tracked and was directly modified
or depends on a deleted module, no path absent from the graph is submitted,
and when the worklist is non-empty exactly this list is handed to the
traversal engine. -/
theorem getDelta_submits_filtered_expansion (orc : TraversalOracle ε)
    (g : Graph) (m d : List String) :
    (∀ p, p ∈ modifiedDependencies g m d ↔
      hasEdge g p = true ∧
        (p ∈ m ∨ ∃ fp ∈ d, ∃ e, lookupEdge g fp = some e ∧
          p ∈ e.inverseDependencies)) ∧
    (∀ p ∈ modifiedDependencies g m d, hasEdge g p = true) ∧
    (g.dependencies.length ≠ 0 →
      modifiedDependencies g m d ≠ [] →
      getChangedDependencies orc g m d =
        submitTraverse (orc.traverse (modifiedDependencies g m d) g)) := by
  refine ⟨fun p => mem_modifiedDependencies g m d p, ?_, ?_⟩
  · exact fun p hp => ((mem_modifiedDependencies g m d p).1 hp).1
  · intro hne hmd
    unfold getChangedDependencies
    rw [if_neg hne]
    simp only []
    rw [if_neg (by simpa [List.length_eq_zero] using hmd)]

theorem getDelta_submits_filtered_expansion_witness :
    ("b" ∈ modifiedDependencies w1Graph ["a"] ["d"] ↔
      hasEdge w1Graph "b" = true ∧
        ("b" ∈ ["a"] ∨ ∃ fp ∈ ["d"], ∃ e, lookupEdge w1Graph fp = some e ∧
          "b" ∈ e.inverseDependencies)) ∧
    getChangedDependencies w1Oracle w1Graph ["a"] ["d"] =
      submitTraverse
        (w1Oracle.traverse (modifiedDependencies w1Graph ["a"] ["d"]) w1Graph) :=
  ⟨(getDelta_submits_filtered_expansion w1Oracle w1Graph ["a"] ["d"]).1 "b",
   (getDelta_submits_filtered_expansion w1Oracle w1Graph ["a"] ["d"]).2.2
     (by decide) (by decide)⟩

/-- Claim C2: when the traversal of a getDelta call throws, the error is
re-raised; if the edge count after the failure differs from the count
recorded before the build started the dependencies map is replaced by an
empty map, and if the count is unchanged the graph is left exactly as the
failed traversal left it. -/
theorem getDelta_error_resets_graph_when_count_changed (orc : TraversalOracle ε)
    (s : CalcState ε) (cm cd : List String) (n : Nat) (r : Bool)
    (g' : Graph) (e : ε)
    (hin : s.inflight = some (cm, cd, n, r))
    (hrun : getChangedDependencies orc s.graph cm cd = (g', Except.error e)) :
    (finishBuild orc s).2 = some (Except.error e) ∧
    (g'.dependencies.length ≠ n →
      (finishBuild orc s).1.graph.dependencies = []) ∧
    (g'.dependencies.length = n → (finishBuild orc s).1.graph = g') := by
  simp only [finishBuild, hin, hrun]
  refine ⟨trivial, ?_, ?_⟩
  · intro h
    simp [h]
  · intro h
    simp [h]

theorem getDelta_error_resets_graph_witness :
    (finishBuild w2Oracle w2State).2 = some (Except.error ()) ∧
    (finishBuild w2Oracle w2State).1.graph.dependencies = [] :=
  ⟨(getDelta_error_resets_graph_when_count_changed w2Oracle w2State ["a"] [] 1
      false ⟨[], ["a"]⟩ () rfl rfl).1,
   (getDelta_error_resets_graph_when_count_changed w2Oracle w2State ["a"] [] 1
      false ⟨[], ["a"]⟩ () rfl rfl).2.1 (by decide)⟩

/-- Claim C3: when the traversal of a getDelta call throws, every consumed
modified path and every consumed deleted path is re-inserted into the
respective pending set (and changes already pending are kept) before the
error is re-raised, so no pending change is lost on failure. -/
theorem getDelta_error_restores_pending (orc : TraversalOracle ε)
    (s : CalcState ε) (cm cd : List String) (n : Nat) (r : Bool)
    (g' : Graph) (e : ε)
    (hin : s.inflight = some (cm, cd, n, r))
    (hrun : getChangedDependencies orc s.graph cm cd = (g', Except.error e)) :
    (∀ p ∈ cm, p ∈ (finishBuild orc s).1.modifiedFiles) ∧
    (∀ p ∈ cd, p ∈ (finishBuild orc s).1.deletedFiles) ∧
    (∀ p ∈ s.modifiedFiles, p ∈ (finishBuild orc s).1.modifiedFiles) ∧
    (∀ p ∈ s.deletedFiles, p ∈ (finishBuild orc s).1.deletedFiles) ∧
    (finishBuild orc s).2 = some (Except.error e) := by
  simp only [finishBuild, hin, hrun]
  refine ⟨?_, ?_, ?_, ?_, trivial⟩
  · exact fun p hp => (mem_foldl_addPath cm s.modifiedFiles p).2 (Or.inr hp)
  · exact fun p hp => (mem_foldl_addPath cd s.deletedFiles p).2 (Or.inr hp)
  · exact fun p hp => (mem_foldl_addPath cm s.modifiedFiles p).2 (Or.inl hp)
  · exact fun p hp => (mem_foldl_addPath cd s.deletedFiles p).2 (Or.inl hp)

theorem getDelta_error_restores_pending_witness :
    "a" ∈ (finishBuild w3Oracle w3State).1.modifiedFiles ∧
    "q" ∈ (finishBuild w3Oracle w3State).1.deletedFiles ∧
    "z" ∈ (finishBuild w3Oracle w3State).1.deletedFiles ∧
    (finishBuild w3Oracle w3State).2 = some (Except.error ()) :=
  ⟨(getDelta_error_restores_pending w3Oracle w3State ["a"] ["q"] 1 false
      w3Graph () rfl rfl).1 "a" (by decide),
   (getDelta_error_restores_pending w3Oracle w3State ["a"] ["q"] 1 false
      w3Graph () rfl rfl).2.1 "q" (by decide),
   (getDelta_error_restores_pending w3Oracle w3State ["a"] ["q"] 1 false
      w3Graph () rfl rfl).2.2.2.1 "z" (by decide),
   (getDelta_error_restores_pending w3Oracle w3State ["a"] ["q"] 1 false
      w3Graph () rfl rfl).2.2.2.2⟩

/-- Claim C4: getDelta swaps both pending sets for fresh empty ones before
any processing, recording the consumed sets; a file-change notification
arriving while a build is in flight leaves the in-flight consumed sets and
the graph untouched (so the delta being computed is unchanged) and records
the path in the appropriate new pending set for the next delta. -/
theorem getDelta_swap_isolates_pending (orc : TraversalOracle ε)
    (s : CalcState ε) (t p : String) (r : Bool) :
    (s.inflight = none →
      (startBuildStep r s).modifiedFiles = [] ∧
      (startBuildStep r s).deletedFiles = [] ∧
      (startBuildStep r s).inflight =
        some (s.modifiedFiles, s.deletedFiles, s.graph.dependencies.length, r)) ∧
    (handleFileChange t p s).inflight = s.inflight ∧
    (handleFileChange t p s).graph = s.graph ∧
    (finishBuild orc (handleFileChange t p s)).2 = (finishBuild orc s).2 ∧
    (t = "delete" → p ∈ (handleFileChange t p s).deletedFiles) ∧
    (t ≠ "delete" → p ∈ (handleFileChange t p s).modifiedFiles) := by
  have hinf : (handleFileChange t p s).inflight = s.inflight := by
    unfold handleFileChange
    split <;> rfl
  have hgr : (handleFileChange t p s).graph = s.graph := by
    unfold handleFileChange
    split <;> rfl
  refine ⟨?_, hinf, hgr, finishBuild_snd_congr orc s _ hinf hgr, ?_, ?_⟩
  · intro h
    unfold startBuildStep
    rw [h]
    exact ⟨rfl, rfl, rfl⟩
  · intro h
    unfold handleFileChange
    rw [if_pos h]
    exact mem_addPath.2 (Or.inr rfl)
  · intro h
    unfold handleFileChange
    rw [if_neg h]
    exact mem_addPath.2 (Or.inr rfl)

theorem getDelta_swap_isolates_pending_witness :
    ((startBuildStep false w4State).modifiedFiles = [] ∧
      (startBuildStep false w4State).deletedFiles = [] ∧
      (startBuildStep false w4State).inflight =
        some (w4State.modifiedFiles, w4State.deletedFiles,
          w4State.graph.dependencies.length, false)) ∧
    "x" ∈ (handleFileChange "delete" "x" w4State).deletedFiles ∧
    (finishBuild w4Oracle (handleFileChange "delete" "x" w4State)).2 =
      (finishBuild w4Oracle w4State).2 :=
  ⟨(getDelta_swap_isolates_pending w4Oracle w4State "delete" "x" false).1 rfl,
   (getDelta_swap_isolates_pending w4Oracle w4State "delete" "x"
      false).2.2.2.2.1 rfl,
   (getDelta_swap_isolates_pending w4Oracle w4State "delete" "x"
      false).2.2.2.1⟩

/-- Claim C5: a getDelta call with reset=true that completes without error
reorders the current graph and returns reset=true, an empty deleted set, and
the full reordered dependencies mapping, regardless of the DeltaResult the
underlying build produced. -/
theorem getDelta_reset_returns_full_reordered_graph (orc : TraversalOracle ε)
    (s : CalcState ε) (cm cd : List String) (n : Nat)
    (g' : Graph) (res : DeltaResult)
    (hin : s.inflight = some (cm, cd, n, true))
    (hrun : getChangedDependencies orc s.graph cm cd = (g', Except.ok res)) :
    (finishBuild orc s).2 =
      some (Except.ok ⟨(orc.reorder g').dependencies, [], true⟩) ∧
    (finishBuild orc s).1.graph = orc.reorder g' := by
  simp [finishBuild, hin, hrun]

theorem getDelta_reset_returns_full_reordered_graph_witness :
    (finishBuild w5Oracle w5State).2 =
      some (Except.ok ⟨w5Graph.dependencies, [], true⟩) ∧
    (finishBuild w5Oracle w5State).1.graph = w5Graph :=
  ⟨(getDelta_reset_returns_full_reordered_graph w5Oracle w5State ["a"] [] 1
      w5Graph ⟨[], [], false⟩ rfl rfl).1,
   (getDelta_reset_returns_full_reordered_graph w5Oracle w5State ["a"] [] 1
      w5Graph ⟨[], [], false⟩ rfl rfl).2⟩

/-- Claim C6: a getDelta call made while the graph is empty runs the initial
traversal from the entry points (the consumed pending sets are ignored, for
any contents) and returns reset=true with the edge records the initial
traversal created and an empty deleted set. -/
theorem getDelta_empty_graph_initial (orc : TraversalOracle ε) (g g' : Graph)
    (added : List (String × DependencyEdge)) (m d : List String)
    (hempty : g.dependencies.length = 0)
    (hinit : orc.initialTraverse g = (g', Except.ok added)) :
    getChangedDependencies orc g m d = (g', Except.ok ⟨added, [], true⟩) := by
  unfold getChangedDependencies
  rw [if_pos hempty, hinit]
  rfl

theorem getDelta_empty_graph_initial_witness :
    getChangedDependencies w6Oracle ⟨[], ["e"]⟩ ["m"] ["d"] =
      (w6Graph, Except.ok ⟨w6Graph.dependencies, [], true⟩) :=
  getDelta_empty_graph_initial w6Oracle ⟨[], ["e"]⟩ w6Graph
    w6Graph.dependencies ["m"] ["d"] rfl rfl

/-- Claim C7: on a non-empty graph, when after deletion expansion and
filtering no consumed modified path is tracked by the graph, getDelta
returns an empty, non-reset delta, the graph is unchanged, and the traversal
engine is not invoked (the result holds for every oracle). -/
theorem getDelta_no_tracked_changes_empty_delta (orc : TraversalOracle ε)
    (g : Graph) (m d : List String)
    (hne : g.dependencies.length ≠ 0)
    (hmd : modifiedDependencies g m d = []) :
    getChangedDependencies orc g m d = (g, Except.ok ⟨[], [], false⟩) := by
  unfold getChangedDependencies
  rw [if_neg hne]
  simp [hmd]

theorem getDelta_no_tracked_changes_empty_delta_witness :
    getChangedDependencies w7Oracle w7Graph ["x"] [] =
      (w7Graph, Except.ok ⟨[], [], false⟩) :=
  getDelta_no_tracked_changes_empty_delta w7Oracle w7Graph ["x"] []
    (by decide) (by decide)

/-- Claim C8: for every change notification the Live Update Server sends
exactly three ordered messages: update-start, then the update on success or
the thrown error normalized to type/message/errors with one
description-filename-lineNumber entry on failure, then update-done; the
handler is total, so no error propagates past the connection. -/
theorem hmr_three_message_envelope (createModuleId : String → String)
    (outcome : Except ThrownError DeltaResult) :
    (messagesForChange createModuleId outcome).length = 3 ∧
    (messagesForChange createModuleId outcome).head? =
      some HmrMessage.updateStart ∧
    (messagesForChange createModuleId outcome).getLast? =
      some HmrMessage.updateDone ∧
    (∀ d, outcome = Except.ok d →
      messagesForChange createModuleId outcome =
        [HmrMessage.updateStart,
         HmrMessage.update (prepareModules createModuleId d.modified),
         HmrMessage.updateDone]) ∧
    (∀ e, outcome = Except.error e →
      messagesForChange createModuleId outcome =
        [HmrMessage.updateStart,
         HmrMessage.error
           ⟨e.type, e.message, [(e.message, e.filename, e.lineNumber)]⟩,
         HmrMessage.updateDone]) := by
  cases outcome with
  | ok d =>
    refine ⟨rfl, rfl, rfl, ?_, ?_⟩
    · intro d' hd
      cases hd
      rfl
    · intro e he
      cases he
  | error e =>
    refine ⟨rfl, rfl, rfl, ?_, ?_⟩
    · intro d' hd
      cases hd
    · intro e' he
      cases he
      rfl

theorem hmr_three_message_envelope_witness :
    messagesForChange (fun p => p ++ "-id")
        (Except.error ⟨"TransformError", "test syntax error", "EntryPoint.js",
          123⟩) =
      [HmrMessage.updateStart,
       HmrMessage.error ⟨"TransformError", "test syntax error",
         [("test syntax error", "EntryPoint.js", 123)]⟩,
       HmrMessage.updateDone] ∧
    (messagesForChange (fun p => p ++ "-id")
        (Except.ok ⟨[("/hi", ⟨"/hi", [], [],
          "code"⟩)], [], false⟩)).length = 3 :=
  ⟨(hmr_three_message_envelope (fun p => p ++ "-id")
      (Except.error ⟨"TransformError", "test syntax error", "EntryPoint.js",
        123⟩)).2.2.2.2
      ⟨"TransformError", "test syntax error", "EntryPoint.js", 123⟩ rfl,
   (hmr_three_message_envelope (fun p => p ++ "-id")
      (Except.ok ⟨[("/hi", ⟨"/hi", [], [], "code"⟩)], [], false⟩)).1⟩

/-- Claim C9, counterexample: a trace in which a modified file is consumed by
a build, a delete notification for the same path arrives mid-build, and the
build fails, ends with the path in both pending sets: the failure-path
restoration of getDelta adds without removing from the other set. -/
theorem pending_exclusive_counterexample :
    "p" ∈ (runOps cexOracle cexOps (initialCalcState Unit ["p"])).modifiedFiles ∧
    "p" ∈ (runOps cexOracle cexOps (initialCalcState Unit ["p"])).deletedFiles := by
  decide

/-- Claim C9, amended: mutual exclusivity of the pending sets is preserved by
every file-change notification, by the swap at the start of a build, and by
a successfully finishing build; only the failure-path restoration can break
it. -/
theorem pending_exclusive_preserved_outside_failure (orc : TraversalOracle ε)
    (s : CalcState ε) (t p : String) (r : Bool) (h : pendingExclusive s) :
    pendingExclusive (handleFileChange t p s) ∧
    pendingExclusive (startBuildStep r s) ∧
    (∀ res : DeltaResult,
      (finishBuild orc s).2 = some (Except.ok res) →
      pendingExclusive (finishBuild orc s).1) := by
  refine ⟨?_, ?_, ?_⟩
  · intro q hq hq'
    unfold handleFileChange at hq hq'
    by_cases ht : t = "delete"
    · rw [if_pos ht] at hq hq'
      have h1 := mem_removePath.1 hq
      have h2 := mem_addPath.1 hq'
      rcases h2 with h2 | h2
      · exact h q h1.1 h2
      · exact h1.2 h2
    · rw [if_neg ht] at hq hq'
      have h1 := mem_addPath.1 hq
      have h2 := mem_removePath.1 hq'
      rcases h1 with h1 | h1
      · exact h q h1 h2.1
      · exact h2.2 h1
  · cases hi : s.inflight with
    | some v =>
      unfold startBuildStep
      rw [hi]
      exact h
    | none =>
      unfold startBuildStep
      rw [hi]
      intro q hq
      simp at hq
  · intro res hres
    cases hi : s.inflight with
    | none => simp [finishBuild, hi] at hres
    | some v =>
      obtain ⟨cm, cd, n, r'⟩ := v
      cases hr : getChangedDependencies orc s.graph cm cd with
      | mk g' out =>
        cases out with
        | error e =>
          simp [finishBuild, hi, hr] at hres
        | ok result =>
          cases r' <;> simp [finishBuild, hi, hr] <;> exact h

theorem pending_exclusive_preserved_witness :
    pendingExclusive (handleFileChange "delete" "x" w9State) ∧
    pendingExclusive (startBuildStep false w9State) :=
  ⟨(pending_exclusive_preserved_outside_failure w9Oracle w9State "delete" "x"
      false (by intro q hq hk; simp [w9State] at hq hk; subst hq; exact absurd hk (by decide))).1,
   (pending_exclusive_preserved_outside_failure w9Oracle w9State "delete" "x"
      false (by intro q hq hk; simp [w9State] at hq hk; subst hq; exact absurd hk (by decide))).2.1⟩

/-- Claim C10: end() resets the graph and the pending sets but does not clear
the memoized transformer options; getTransformerOptions called after end()
returns the previously computed value unchanged, for any derivation
function, hence without recomputing. -/
theorem end_preserves_transformer_options
    (calcOpts : CalcState ε → JSTransformerOptions)
    (s : CalcState ε) (v : JSTransformerOptions)
    (h : s.transformerOptions = some v) :
    getTransformerOptions calcOpts s = (s, v) ∧
    (endCalc s).transformerOptions = some v ∧
    getTransformerOptions calcOpts (endCalc s) = (endCalc s, v) ∧
    (endCalc s).graph = ⟨[], s.entryPoints⟩ ∧
    (endCalc s).modifiedFiles = [] ∧
    (endCalc s).deletedFiles = [] := by
  have hend : (endCalc s).transformerOptions = some v := by
    unfold endCalc
    exact h
  refine ⟨?_, hend, ?_, rfl, rfl, rfl⟩
  · unfold getTransformerOptions
    rw [h]
  · unfold getTransformerOptions
    rw [hend]

theorem end_preserves_transformer_options_witness :
    getTransformerOptions (fun _ => w10Opts) (endCalc w10State) =
      (endCalc w10State, w10Opts) ∧
    (endCalc w10State).transformerOptions = some w10Opts :=
  ⟨(end_preserves_transformer_options (fun _ => w10Opts) w10State w10Opts
      rfl).2.2.1,
   (end_preserves_transformer_options (fun _ => w10Opts) w10State w10Opts
      rfl).2.1⟩

end MetroDelta
